import Mathlib

set_option maxHeartbeats 1000000

/-!
Shallow embedding of the async multiplexing layer and the z85 byte codec of
the devalue repository, with theorems settling the frozen claims about them.

Machine numbers: every quantity involved (byte values, base-85 digits,
channel ids, status codes) is a small non-negative integer in the source,
so the embedding uses `Nat` throughout.
-/

namespace Z85

/-- The `ENCODE` alphabet of src/z85.js
("0123456789abcdefghijklmnopqrstuvwxyzABCDEFGHIJKLMNOPQRSTUVWXYZ.-:+=^!/*?&<>()[]\x7b\x7d@%$#"),
given as the list of its character codes. -/
def ENCODE : List Nat :=
  [48, 49, 50, 51, 52, 53, 54, 55, 56, 57, 97, 98, 99, 100, 101, 102, 103,
   104, 105, 106, 107, 108, 109, 110, 111, 112, 113, 114, 115, 116, 117, 118,
   119, 120, 121, 122, 65, 66, 67, 68, 69, 70, 71, 72, 73, 74, 75, 76, 77,
   78, 79, 80, 81, 82, 83, 84, 85, 86, 87, 88, 89, 90, 46, 45, 58, 43, 61,
   94, 33, 47, 42, 63, 38, 60, 62, 40, 41, 91, 93, 123, 125, 64, 37, 36, 35]

/-- The `DECODE` table of src/z85.js, indexed by character code minus 32. -/
def DECODE : List Int :=
  [-1, 68, -1, 84, 83, 82, 72, -1, 75, 76, 70, 65, -1, 63, 62, 69, 0, 1, 2,
   3, 4, 5, 6, 7, 8, 9, 64, -1, 73, 66, 74, 71, 81, 36, 37, 38, 39, 40, 41,
   42, 43, 44, 45, 46, 47, 48, 49, 50, 51, 52, 53, 54, 55, 56, 57, 58, 59,
   60, 61, 77, -1, 78, 67, -1, -1, 10, 11, 12, 13, 14, 15, 16, 17, 18, 19,
   20, 21, 22, 23, 24, 25, 26, 27, 28, 29, 30, 31, 32, 33, 34, 35, 79, -1,
   80, -1, -1]

/-- `ENCODE[d]`: the character emitted for base-85 digit `d` (src/z85.js line 23-30). -/
def encodeDigit (d : Nat) : Nat := ENCODE.getD d 0

/-- `DECODE[string.charCodeAt(char) - 32]` (src/z85.js line 53).  On every
character of the alphabet the table entry is non-negative, and the JS code
accumulates it with ordinary number arithmetic, so the embedding takes the
natural-number value of the entry. -/
def decodeDigit (c : Nat) : Nat := (DECODE.getD (c - 32) (-1)).toNat

/-- The accumulator `value = value * 256 + u8a[i]` of the encoder loop
(src/z85.js line 19), run over one 4-byte group. -/
def groupValue (bs : List Nat) : Nat := bs.foldl (fun acc b => acc * 256 + b) 0

/-- The five characters `ENCODE[Math.floor(value / POW_85[j]) % 85]`,
j = 4,3,2,1,0, emitted for one full 4-byte group (src/z85.js lines 23-27);
a trailing partial group emits only a prefix of them (lines 29-31). -/
def encodeValue (v : Nat) : List Nat :=
  [encodeDigit (v / 52200625 % 85), encodeDigit (v / 614125 % 85),
   encodeDigit (v / 7225 % 85), encodeDigit (v / 85 % 85), encodeDigit (v % 85)]

/-- `encode85` of src/z85.js over a byte list.  The JS loop processes the
input in 4-byte groups, resetting `value` after each group; zero padding and
the shortened output (`5 - padding` characters) apply only to the final
group, because `padding > 0` only affects indices `i >= length`.  The
embedding states that group decomposition directly. -/
def encode85 : List Nat → List Nat
  | [] => []
  | [b0] => (encodeValue (groupValue [b0, 0, 0, 0])).take 2
  | [b0, b1] => (encodeValue (groupValue [b0, b1, 0, 0])).take 3
  | [b0, b1, b2] => (encodeValue (groupValue [b0, b1, b2, 0])).take 4
  | b0 :: b1 :: b2 :: b3 :: rest =>
      encodeValue (groupValue [b0, b1, b2, b3]) ++ encode85 rest

/-- The accumulator `value = value * 85 + DECODE[...]` of the decoder loop
(src/z85.js line 53), run over one 5-character group. -/
def groupValue85 (cs : List Nat) : Nat :=
  cs.foldl (fun acc c => acc * 85 + decodeDigit c) 0

/-- The four bytes `Math.floor(value / POW_256[j]) % 256`, j = 3,2,1,0,
written for one 5-character group (src/z85.js lines 56-57). -/
def decodeValue (v : Nat) : List Nat :=
  [v / 16777216 % 256, v / 65536 % 256, v / 256 % 256, v % 256]

/-- `decode85` of src/z85.js over a list of character codes.  The JS code
pads the input with `'#'` (character code 35, the last alphabet entry) to a
multiple of 5, decodes 5-character groups into 4-byte words, and allocates
the output buffer `padding` bytes short, so the trailing writes of the last
group fall outside the `Uint8Array` and are discarded.  The embedding states
that group decomposition directly: padding characters are appended to the
final short group and the discarded trailing bytes are dropped with `take`. -/
def decode85 : List Nat → List Nat
  | [] => []
  | [_] => []
  | [c0, c1] => (decodeValue (groupValue85 [c0, c1, 35, 35, 35])).take 1
  | [c0, c1, c2] => (decodeValue (groupValue85 [c0, c1, c2, 35, 35])).take 2
  | [c0, c1, c2, c3] => (decodeValue (groupValue85 [c0, c1, c2, c3, 35])).take 3
  | c0 :: c1 :: c2 :: c3 :: c4 :: rest =>
      decodeValue (groupValue85 [c0, c1, c2, c3, c4]) ++ decode85 rest

end Z85

/-! ## The merge scheduler of `asyncIterableMerge` (src/src/async.js lines 43-108)

`asyncIterableMerge` keeps a set of active iterators, each paired with its
currently pending `next()` promise, and repeatedly races them
(`Promise.race`, lines 81-85), emitting whichever settles first.  The
embedding models each wrapped source as an `MEntry`: its channel id, the
chunks it will still produce (each with the duration its step takes from
request to settlement), and the absolute time its pending promise settles.
Time is a `Nat` clock: racing picks the first already-settled entry in set
order, else the entry whose promise settles earliest (ties to the earlier
entry in set-insertion order, matching how `Promise.race` adopts the first
promise of the array to settle). -/

namespace Merge

/-- One chunk of post-head output: a status code plus its already-encoded
payload text. -/
structure Chunk where
  status : Nat
  payload : String
deriving DecidableEq

/-- One member of the `activeIterators` set (lines 46-47, 66, 76): the
channel id of the wrapper generator, the remaining timed chunks of the
source, and the absolute time at which the pending `next()` promise
settles. -/
structure MEntry where
  id : Nat
  steps : List (Nat × Chunk)
  ready : Nat
deriving DecidableEq

/-- Entry for a source whose first `next()` is requested at time 0 (all
sources registered before iteration starts, lines 74-77). A source with no
chunks resolves `done` immediately. -/
def mkEntry (i : Nat) (steps : List (Nat × Chunk)) : MEntry :=
  { id := i, steps := steps, ready := (steps.headD (0, Chunk.mk 0 "")).1 }

/-- Re-registration after a chunk was emitted at time `t`
(lines 90-93: `next: entry.iterator.next()` requested immediately);
an exhausted source's final `next()` resolves `done` without delay. -/
def reenter (e : MEntry) (more : List (Nat × Chunk)) (t : Nat) : MEntry :=
  { id := e.id, steps := more, ready := t + (more.headD (0, Chunk.mk 0 "")).1 }

/-- First entry whose pending promise has already settled (`ready ≤ t`),
with the remaining entries in order: among promises settled before the race
starts, `Promise.race` adopts the first in array order. -/
def findSettled (t : Nat) : List MEntry → Option (MEntry × List MEntry)
  | [] => none
  | e :: es =>
    if e.ready ≤ t then some (e, es)
    else
      match findSettled t es with
      | some (w, rest) => some (w, e :: rest)
      | none => none

/-- Entry whose pending promise settles earliest, ties to the earlier entry,
with the remaining entries in order. -/
def findMinReady : List MEntry → Option (MEntry × List MEntry)
  | [] => none
  | e :: es =>
    match findMinReady es with
    | none => some (e, [])
    | some (w, rest) =>
      if e.ready ≤ w.ready then some (e, es) else some (w, e :: rest)

/-- The winner of one `Promise.race` over the active set. -/
def selectEntry (t : Nat) (es : List MEntry) : Option (MEntry × List MEntry) :=
  match findSettled t es with
  | some r => some r
  | none => findMinReady es

/-- Fuel bound for the race loop: every iteration either emits a chunk or
drops a finished entry. -/
def totalSize (es : List MEntry) : Nat :=
  (es.map (fun e => e.steps.length + 1)).sum

/-- Total number of chunks the active sources will still produce. -/
def stepsTotal (es : List MEntry) : Nat :=
  (es.map (fun e => e.steps.length)).sum

/-- The race loop of `asyncIterableMerge` (lines 80-95): await the race,
delete the winning entry; when its result is `done`, drop it, otherwise
emit `(time, id, chunk)` and re-add the entry (at the end of the set's
insertion order) with its next step requested at the emission time.  `fuel`
is an upper bound on the number of loop iterations; `mergeRunAll` supplies
a sufficient bound. -/
def mergeRun : Nat → Nat → List MEntry → List (Nat × Nat × Chunk)
  | 0, _, _ => []
  | fuel + 1, t, es =>
    match selectEntry t es with
    | none => []
    | some (e, rest) =>
      match e.steps with
      | [] => mergeRun fuel (max t e.ready) rest
      | (_, c) :: more =>
          (max t e.ready, e.id, c) ::
            mergeRun fuel (max t e.ready)
              (rest ++ [reenter e more (max t e.ready)])

/-- The merged output stream for a set of sources all registered at time 0. -/
def mergeRunAll (es : List MEntry) : List (Nat × Nat × Chunk) :=
  mergeRun (totalSize es) 0 es

/-- The chunks of the merged output that belong to channel `i`, in output
order. -/
def projChunks (i : Nat) (out : List (Nat × Nat × Chunk)) : List Chunk :=
  out.filterMap (fun x => if x.2.1 = i then some x.2.2 else none)

/-- State of the merge at the moment the consumer abandons the stream right
after receiving its `k`-th channel chunk (`k ≥ 1`): the generator is then
suspended at `yield res.value` (line 89), with the winning entry already
deleted from `activeIterators` (line 87) and not yet re-added (line 90).
Returns the emitting entry and the other active entries; `none` when the
merge finishes before a `k`-th chunk exists. -/
def suspState : Nat → Nat → Nat → List MEntry → Option (MEntry × List MEntry)
  | 0, _, _, _ => none
  | fuel + 1, k, t, es =>
    match selectEntry t es with
    | none => none
    | some (e, rest) =>
      match e.steps with
      | [] => suspState fuel k (max t e.ready) rest
      | (_, _) :: more =>
        if k ≤ 1 then some (e, rest)
        else
          suspState fuel (k - 1) (max t e.ready)
            (rest ++ [reenter e more (max t e.ready)])

/-- The channel ids whose wrapper iterator's `return` the `finally` block of
`asyncIterableMerge` (lines 96-105) invokes when the consumer cancels right
after the `k`-th chunk: exactly the members of `activeIterators` at that
suspension.  Cancellation right after the head line (`k = 0`) resumes
`stringifyAsync` at its `yield` on line 206; `stringifyAsync` has no
try/finally and the `for await` over the merge (line 208) was never entered,
so no cleanup runs at all. -/
def cancelCleanup (es : List MEntry) (k : Nat) : List Nat :=
  if k = 0 then []
  else
    match suspState (totalSize es) k 0 es with
    | none => []
    | some (_, rest) => rest.map MEntry.id

end Merge

/-- Iterated channel-id allocation: the ids handed out by `n` successive
registrations starting from counter value `c`, for a given allocation step
function. -/
def sessionIds (alloc : Nat → Nat × Nat) : Nat → Nat → List Nat
  | 0, _ => []
  | n + 1, c => (alloc c).1 :: sessionIds alloc n (alloc c).2

/-! ## Demultiplexer channel buffers (shared by both demultiplexers) -/

namespace Demux

/-- One item delivered into a registered channel's buffer by the pump:
either a decoded `[status, value]` chunk (payload kept as its decoded text)
or a synthetic interruption `Error`. -/
inductive PItem where
  | val : Nat → String → PItem
  | interrupted : String → PItem
deriving DecidableEq

/-- The registered channels (`enqueueMap` in parseAsync, `asyncMap` in
parseAsyncIterable), each with the items delivered to its buffer so far. -/
abbrev ChanMap := List (Nat × List PItem)

/-- `enqueueMap.get(idx)?.(item)`: append to the buffer of channel `idx` if
it is registered, do nothing otherwise. -/
def enqueueTo (m : ChanMap) (idx : Nat) (x : PItem) : ChanMap :=
  m.map (fun p => if p.1 = idx then (p.1, p.2 ++ [x]) else p)

/-- Deliver a synthetic interruption error to every registered channel. -/
def broadcastErr (m : ChanMap) (msg : String) : ChanMap :=
  m.map (fun p => (p.1, p.2 ++ [PItem.interrupted msg]))

end Demux

/-! ## src/src/async.js -/

namespace AsyncJs

def PROMISE_STATUS_FULFILLED : Nat := 0

def PROMISE_STATUS_REJECTED : Nat := 1

def ASYNC_ITERABLE_STATUS_YIELD : Nat := 0

def ASYNC_ITERABLE_STATUS_ERROR : Nat := 1

def ASYNC_ITERABLE_STATUS_RETURN : Nat := 2

/-- `registerAsync` (lines 129-143): `const idx = ++counter` increments the
session counter first and uses the new value as the channel id; returns
`(id, new counter)`. -/
def registerAsyncAlloc (counter : Nat) : Nat × Nat := (counter + 1, counter + 1)

/-- Model of a value handed to `stringifyAsync`, keeping the structure the
async layer inspects: atoms (anything the base `stringify` serializes
inline, kept as its encoded text), promise-like values (settlement duration
and outcome, fulfillment value or rejection cause as encoded text),
async-iterable values (timed yields, then the terminal: return value or
thrown cause), and composites containing other values. -/
inductive AVal where
  | atom : String → AVal
  | promiseV : Nat → Except String String → AVal
  | aiterV : List (Nat × String) → Nat → Except String String → AVal
  | pairV : AVal → AVal → AVal

/-- The chunks the `Promise` reducer's generator (lines 155-162) produces:
exactly one `[PROMISE_STATUS_FULFILLED, value]` or
`[PROMISE_STATUS_REJECTED, cause]` chunk once the promise settles. -/
def promiseSteps (d : Nat) (out : Except String String) :
    List (Nat × Merge.Chunk) :=
  match out with
  | .ok s => [(d, Merge.Chunk.mk PROMISE_STATUS_FULFILLED s)]
  | .error s => [(d, Merge.Chunk.mk PROMISE_STATUS_REJECTED s)]

/-- The chunks the `AsyncIterable` reducer's generator (lines 168-190)
produces: one yield-status chunk per yielded value, then exactly one
terminal chunk, return-status on exhaustion (lines 173-178) or error-status
when the source throws (lines 185-186), after which the generator ends. -/
def aiterSteps (ys : List (Nat × String)) (d : Nat)
    (term : Except String String) : List (Nat × Merge.Chunk) :=
  ys.map (fun p => (p.1, Merge.Chunk.mk ASYNC_ITERABLE_STATUS_YIELD p.2)) ++
    [match term with
     | .ok s => (d, Merge.Chunk.mk ASYNC_ITERABLE_STATUS_RETURN s)
     | .error s => (d, Merge.Chunk.mk ASYNC_ITERABLE_STATUS_ERROR s)]

/-- The head structure `stringify(value, revivers)` yields on line 206: the
value with each pending source replaced by its channel id. -/
inductive Flat where
  | atom : String → Flat
  | pendingSingle : Nat → Flat
  | pendingSeq : Nat → Flat
  | pairF : Flat → Flat → Flat
deriving DecidableEq

/-- Flattening with the session counter: the `Promise`/`AsyncIterable`
reducers (lines 148-191) call `registerAsync` on each pending source in
traversal order; each call increments the counter, replaces the source with
the new id, and adds the source's wrapper iterable to the merge set.
Returns the flat head, the final counter, and the registered entries in
registration order. -/
def flattenA : AVal → Nat → Flat × Nat × List Merge.MEntry
  | .atom s, c => (.atom s, c, [])
  | .promiseV d out, c =>
      (.pendingSingle (c + 1), c + 1,
        [Merge.mkEntry (c + 1) (promiseSteps d out)])
  | .aiterV ys d term, c =>
      (.pendingSeq (c + 1), c + 1,
        [Merge.mkEntry (c + 1) (aiterSteps ys d term)])
  | .pairV a b, c =>
      ((.pairF (flattenA a c).1 (flattenA b (flattenA a c).2.1).1 : Flat),
        (flattenA b (flattenA a c).2.1).2.1,
        (flattenA a c).2.2 ++ (flattenA b (flattenA a c).2.1).2.2)

/-- Number of pending sources in a value. -/
def numSources : AVal → Nat
  | .atom _ => 0
  | .promiseV _ _ => 1
  | .aiterV _ _ _ => 1
  | .pairV a b => numSources a + numSources b

/-- Replace every pending source's timings and outcomes while keeping the
value's structure; used to state that the head line is computed without
awaiting any pending source. -/
def mapSpecs (fp : Nat × Except String String → Nat × Except String String)
    (fs : List (Nat × String) × Nat × Except String String
        → List (Nat × String) × Nat × Except String String) :
    AVal → AVal
  | .atom s => .atom s
  | .promiseV d out => .promiseV (fp (d, out)).1 (fp (d, out)).2
  | .aiterV ys d term =>
      .aiterV (fs (ys, d, term)).1 (fs (ys, d, term)).2.1
        (fs (ys, d, term)).2.2
  | .pairV a b => .pairV (mapSpecs fp fs a) (mapSpecs fp fs b)

/-- One line of `stringifyAsync` output: the head line (line 206) or one
`"[idx,status,payload]"` channel line (line 209). -/
inductive OutLine where
  | headLine : Flat → OutLine
  | chunkLine : Nat → Nat → String → OutLine
deriving DecidableEq

/-- The complete output of `stringifyAsync` (lines 206-210): first the head
line, then one channel line per chunk of the merged race loop. -/
def stringifyAsyncTrace (v : AVal) : List OutLine :=
  OutLine.headLine (flattenA v 0).1 ::
    (Merge.mergeRunAll (flattenA v 0).2.2).map
      (fun x => OutLine.chunkLine x.2.1 x.2.2.status x.2.2.payload)

/-- `safeCause` (lines 195-204).  `stringifyE` stands for
`stringify(-, revivers)` on cause values: `.ok text` when the extended
reducer set serializes the value, `.error exn` when it throws.  `coerce` is
`options.coerceError`, itself fallible; its result is stringified in turn. -/
def safeCause (stringifyE : String → Except String String)
    (coerce : Option (String → Except String String)) (cause : String) :
    Except String String :=
  match stringifyE cause with
  | .ok s => .ok s
  | .error err =>
    match coerce with
    | none => .error err
    | some f =>
      match f cause with
      | .ok v => stringifyE v
      | .error e => .error e

/-- The chunk a rejected promise's generator produces (line 160):
`[PROMISE_STATUS_REJECTED, safeCause(cause)]`; a `safeCause` failure
escapes the generator instead of producing a chunk. -/
def rejectedChunk (stringifyE : String → Except String String)
    (coerce : Option (String → Except String String)) (cause : String) :
    Except String Merge.Chunk :=
  (safeCause stringifyE coerce cause).map
    (fun s => Merge.Chunk.mk PROMISE_STATUS_REJECTED s)

/-- Collecting a session's chunk productions into the overall stream
outcome: an exception escaping any source's generator rejects its `next`
promise, `Promise.race` (lines 81-85) rethrows it, and the `for await` on
line 208 aborts the whole output stream with it. -/
def streamResult :
    List (Except String Merge.Chunk) → Except String (List Merge.Chunk)
  | [] => .ok []
  | .ok c :: rest => (streamResult rest).map (fun l => c :: l)
  | .error e :: _ => .error e

/-- The dispatch of `parseAsync`'s `Promise` reviver on a received chunk's
status (lines 293-301): fulfilled resolves, rejected throws, anything else
throws an unknown-status error. -/
inductive PromiseAct where
  | resolveP : PromiseAct
  | rejectP : PromiseAct
  | unknownP : PromiseAct
deriving DecidableEq

def promiseDispatch (status : Nat) : PromiseAct :=
  if status = PROMISE_STATUS_FULFILLED then .resolveP
  else if status = PROMISE_STATUS_REJECTED then .rejectP
  else .unknownP

/-- The dispatch of `parseAsync`'s `AsyncIterable` reviver on a received
chunk's status (lines 307-318); its switch has no default arm, so an
unrecognized status is skipped. -/
inductive SeqAct where
  | yieldA : SeqAct
  | returnA : SeqAct
  | errorA : SeqAct
  | skipA : SeqAct
deriving DecidableEq

def seqDispatch (status : Nat) : SeqAct :=
  if status = ASYNC_ITERABLE_STATUS_YIELD then .yieldA
  else if status = ASYNC_ITERABLE_STATUS_RETURN then .returnA
  else if status = ASYNC_ITERABLE_STATUS_ERROR then .errorA
  else .skipA

/-- The three events of an async-iterable source. -/
inductive SeqEvent where
  | yieldEv : SeqEvent
  | returnEv : SeqEvent
  | errorEv : SeqEvent
deriving DecidableEq

/-- The status code the `AsyncIterable` reducer attaches to each source
event (lines 173-186). -/
def seqStatusOf : SeqEvent → Nat
  | .yieldEv => ASYNC_ITERABLE_STATUS_YIELD
  | .returnEv => ASYNC_ITERABLE_STATUS_RETURN
  | .errorEv => ASYNC_ITERABLE_STATUS_ERROR

/-- The background pump of `parseAsync` (lines 327-357).  A post-head
transport line is `some (idx, status, payload)` when `JSON.parse`,
`assertNumber` and `unflatten` all succeed on it (payload kept as decoded
text) and `none` when processing it throws.  `ending` is `none` when the
transport finishes cleanly (`result.done`) and `some cause` when
`iterator.next()` rejects.  After a clean end the loop falls through to
lines 341-343 and broadcasts the synthetic interruption to every registered
channel; any thrown error reaches the `.catch` (lines 344-357), which
broadcasts it to every registered channel. -/
def pumpParseAsync : List (Option (Nat × Nat × String)) → Option String →
    Demux.ChanMap → Demux.ChanMap
  | [], none, m =>
      Demux.broadcastErr m "Stream interrupted: malformed stream"
  | [], some cause, m => Demux.broadcastErr m cause
  | some l :: rest, ending, m =>
      pumpParseAsync rest ending
        (Demux.enqueueTo m l.1 (Demux.PItem.val l.2.1 l.2.2))
  | none :: _, _, m => Demux.broadcastErr m "Stream interrupted"

end AsyncJs

/-! ## src/unnamed/part_000 (`stringifyStream`) -/

namespace Part000

def PROMISE_STATUS_FULFILLED : Nat := 0

def PROMISE_STATUS_REJECTED : Nat := 1

/-- `registerAsyncIterable` of part_000 (lines 32-48):
`const idx = counter++` uses the current counter value as the channel id
and increments afterwards; returns `(id, new counter)`. -/
def registerAsyncIterableAlloc (counter : Nat) : Nat × Nat :=
  (counter, counter + 1)

end Part000

/-! ## src/unnamed/part_002 (`stringifyAsyncIterable` / `parseAsyncIterable`) -/

namespace Part002

def PROMISE_STATUS_FULFILLED : Nat := 0

def PROMISE_STATUS_REJECTED : Nat := 1

def ASYNC_ITERABLE_STATUS_YIELD : Nat := 0

def ASYNC_ITERABLE_STATUS_RETURN : Nat := 1

def ASYNC_ITERABLE_STATUS_ERROR : Nat := 2

/-- `registerAsyncIterable` of part_002 (lines 52-68):
`const idx = ++counter` increments first and uses the new value. -/
def registerAsyncIterableAlloc (counter : Nat) : Nat × Nat :=
  (counter + 1, counter + 1)

/-- The three events of an async-iterable source. -/
inductive SeqEvent where
  | yieldEv : SeqEvent
  | returnEv : SeqEvent
  | errorEv : SeqEvent
deriving DecidableEq

/-- The status code `stringifyAsyncIterable`'s `AsyncIterable` reducer
attaches to each source event (part_002 lines 101-120). -/
def seqStatusOf : SeqEvent → Nat
  | .yieldEv => ASYNC_ITERABLE_STATUS_YIELD
  | .returnEv => ASYNC_ITERABLE_STATUS_RETURN
  | .errorEv => ASYNC_ITERABLE_STATUS_ERROR

/-- The dispatch of `parseAsyncIterable`'s `AsyncIterable` reviver on a
received chunk's status (part_002 lines 252-263): yield yields, return
returns, error throws, anything else throws an unknown-status error. -/
inductive SeqAct where
  | yieldA : SeqAct
  | returnA : SeqAct
  | errorA : SeqAct
  | unknownA : SeqAct
deriving DecidableEq

def seqDispatch (status : Nat) : SeqAct :=
  if status = ASYNC_ITERABLE_STATUS_YIELD then .yieldA
  else if status = ASYNC_ITERABLE_STATUS_RETURN then .returnA
  else if status = ASYNC_ITERABLE_STATUS_ERROR then .errorA
  else .unknownA

/-- The background pump of `parseAsyncIterable` (part_002 lines 277-308),
same modelling as `AsyncJs.pumpParseAsync`.  The one difference: when the
transport ends cleanly (`result.done`, line 280) the loop just breaks and
the pump task resolves - nothing is broadcast, registered channels keep
waiting.  Only a thrown error reaches the `.catch` (lines 297-308), which
broadcasts a synthetic interruption to every registered channel. -/
def pumpParseAsyncIterable :
    List (Option (Nat × Nat × String)) → Option String →
    Demux.ChanMap → Demux.ChanMap
  | [], none, m => m
  | [], some _, m => Demux.broadcastErr m "Stream interrupted"
  | some l :: rest, ending, m =>
      pumpParseAsyncIterable rest ending
        (Demux.enqueueTo m l.1 (Demux.PItem.val l.2.1 l.2.2))
  | none :: _, _, m => Demux.broadcastErr m "Stream interrupted"

end Part002

/-! ## Theorems -/

open Z85

theorem decode_encodeDigit (d : Nat) (h : d < 85) :
    decodeDigit (encodeDigit d) = d := by
  have h85 : ∀ x : Fin 85, decodeDigit (encodeDigit x.val) = x.val := by decide
  exact h85 ⟨d, h⟩

theorem groupValue85_encodeValue (v : Nat) :
    groupValue85 (encodeValue v) =
      (((v / 52200625 % 85 * 85 + v / 614125 % 85) * 85 + v / 7225 % 85) * 85
          + v / 85 % 85) * 85 + v % 85 := by
  have h4 : v / 52200625 % 85 < 85 := Nat.mod_lt _ (by norm_num)
  have h3 : v / 614125 % 85 < 85 := Nat.mod_lt _ (by norm_num)
  have h2 : v / 7225 % 85 < 85 := Nat.mod_lt _ (by norm_num)
  have h1 : v / 85 % 85 < 85 := Nat.mod_lt _ (by norm_num)
  have h0 : v % 85 < 85 := Nat.mod_lt _ (by norm_num)
  simp [groupValue85, encodeValue, List.foldl, decode_encodeDigit _ h4,
    decode_encodeDigit _ h3, decode_encodeDigit _ h2, decode_encodeDigit _ h1,
    decode_encodeDigit _ h0]

theorem decodeDigit_pad : decodeDigit 35 = 84 := by decide

theorem digitBound (v k : Nat) : v / k % 85 < 85 := Nat.mod_lt _ (by norm_num)

theorem recompose2 (v : Nat) (h : v < 7225) :
    v / 85 % 85 * 85 + v % 85 = v := by
  have e : v / 85 % 85 = v / 85 := Nat.mod_eq_of_lt (by omega)
  rw [e]
  omega

theorem recompose3 (v : Nat) (h : v < 614125) :
    (v / 7225 % 85 * 85 + v / 85 % 85) * 85 + v % 85 = v := by
  have c2 : v / 7225 = v / 85 / 85 := by
    rw [Nat.div_div_eq_div_mul]
  rw [c2, recompose2 (v / 85) (by omega)]
  omega

theorem recompose4 (v : Nat) (h : v < 52200625) :
    ((v / 614125 % 85 * 85 + v / 7225 % 85) * 85 + v / 85 % 85) * 85 + v % 85
      = v := by
  have c3 : v / 614125 = v / 85 / 7225 := by
    rw [Nat.div_div_eq_div_mul]
  have c2 : v / 7225 = v / 85 / 85 := by
    rw [Nat.div_div_eq_div_mul]
  rw [c3, c2, recompose3 (v / 85) (by omega)]
  omega

theorem recompose5 (v : Nat) (h : v < 4437053125) :
    (((v / 52200625 % 85 * 85 + v / 614125 % 85) * 85 + v / 7225 % 85) * 85
        + v / 85 % 85) * 85 + v % 85 = v := by
  have c4 : v / 52200625 = v / 85 / 614125 := by
    rw [Nat.div_div_eq_div_mul]
  have c3 : v / 614125 = v / 85 / 7225 := by
    rw [Nat.div_div_eq_div_mul]
  have c2 : v / 7225 = v / 85 / 85 := by
    rw [Nat.div_div_eq_div_mul]
  rw [c4, c3, c2, recompose4 (v / 85) (by omega)]
  omega

theorem encode85_one (b0 : Nat) : encode85 [b0] =
    [encodeDigit (groupValue [b0, 0, 0, 0] / 52200625 % 85),
     encodeDigit (groupValue [b0, 0, 0, 0] / 614125 % 85)] := rfl

theorem encode85_two (b0 b1 : Nat) : encode85 [b0, b1] =
    [encodeDigit (groupValue [b0, b1, 0, 0] / 52200625 % 85),
     encodeDigit (groupValue [b0, b1, 0, 0] / 614125 % 85),
     encodeDigit (groupValue [b0, b1, 0, 0] / 7225 % 85)] := rfl

theorem encode85_three (b0 b1 b2 : Nat) : encode85 [b0, b1, b2] =
    [encodeDigit (groupValue [b0, b1, b2, 0] / 52200625 % 85),
     encodeDigit (groupValue [b0, b1, b2, 0] / 614125 % 85),
     encodeDigit (groupValue [b0, b1, b2, 0] / 7225 % 85),
     encodeDigit (groupValue [b0, b1, b2, 0] / 85 % 85)] := rfl

theorem encode85_group (b0 b1 b2 b3 : Nat) (rest : List Nat) :
    encode85 (b0 :: b1 :: b2 :: b3 :: rest) =
      encodeValue (groupValue [b0, b1, b2, b3]) ++ encode85 rest := rfl

theorem decode85_two (c0 c1 : Nat) : decode85 [c0, c1] =
    [groupValue85 [c0, c1, 35, 35, 35] / 16777216 % 256] := rfl

theorem decode85_three (c0 c1 c2 : Nat) : decode85 [c0, c1, c2] =
    [groupValue85 [c0, c1, c2, 35, 35] / 16777216 % 256,
     groupValue85 [c0, c1, c2, 35, 35] / 65536 % 256] := rfl

theorem decode85_four (c0 c1 c2 c3 : Nat) : decode85 [c0, c1, c2, c3] =
    [groupValue85 [c0, c1, c2, c3, 35] / 16777216 % 256,
     groupValue85 [c0, c1, c2, c3, 35] / 65536 % 256,
     groupValue85 [c0, c1, c2, c3, 35] / 256 % 256] := rfl

theorem decode85_group (c0 c1 c2 c3 c4 : Nat) (rest : List Nat) :
    decode85 (c0 :: c1 :: c2 :: c3 :: c4 :: rest) =
      decodeValue (groupValue85 [c0, c1, c2, c3, c4]) ++ decode85 rest := rfl

/-- Full-group round trip: a 4-byte group comes back unchanged. -/
theorem group_roundtrip (b0 b1 b2 b3 : Nat) (h0 : b0 < 256) (h1 : b1 < 256)
    (h2 : b2 < 256) (h3 : b3 < 256) :
    decodeValue (groupValue85 (encodeValue (groupValue [b0, b1, b2, b3]))) =
      [b0, b1, b2, b3] := by
  have hv : groupValue [b0, b1, b2, b3]
      = b0 * 16777216 + b1 * 65536 + b2 * 256 + b3 := by
    simp only [groupValue, List.foldl]
    ring
  rw [groupValue85_encodeValue, hv, recompose5 _ (by omega)]
  simp only [decodeValue, List.cons.injEq, and_true]
  omega

/-- Trailing-group round trip, one residual byte. -/
theorem tail1_roundtrip (b0 : Nat) (h0 : b0 < 256) :
    decode85 (encode85 [b0]) = [b0] := by
  have hv : groupValue [b0, 0, 0, 0] = b0 * 16777216 := by
    simp only [groupValue, List.foldl]
    ring
  rw [encode85_one, hv, decode85_two]
  have hd4 := decode_encodeDigit (b0 * 16777216 / 52200625 % 85) (digitBound _ _)
  have hd3 := decode_encodeDigit (b0 * 16777216 / 614125 % 85) (digitBound _ _)
  simp only [groupValue85, List.foldl, decodeDigit_pad, hd4, hd3,
    Nat.zero_mul, Nat.zero_add, List.cons.injEq, and_true]
  have c : b0 * 16777216 / 52200625 = b0 * 16777216 / 614125 / 85 := by
    rw [Nat.div_div_eq_div_mul]
  rw [c, recompose2 (b0 * 16777216 / 614125) (by omega)]
  have h1 := Nat.div_add_mod (b0 * 16777216) 614125
  have h2 : b0 * 16777216 % 614125 < 614125 := Nat.mod_lt _ (by norm_num)
  have hw : ((b0 * 16777216 / 614125 * 85 + 84) * 85 + 84) * 85 + 84
      = 614125 * (b0 * 16777216 / 614125) + 614124 := by ring
  rw [hw, show (614125 * (b0 * 16777216 / 614125) + 614124) / 16777216 = b0
    from Nat.div_eq_of_lt_le (by omega) (by omega)]
  exact Nat.mod_eq_of_lt h0

/-- Trailing-group round trip, two residual bytes. -/
theorem tail2_roundtrip (b0 b1 : Nat) (h0 : b0 < 256) (h1 : b1 < 256) :
    decode85 (encode85 [b0, b1]) = [b0, b1] := by
  have hv : groupValue [b0, b1, 0, 0] = b0 * 16777216 + b1 * 65536 := by
    simp only [groupValue, List.foldl]
    ring
  rw [encode85_two, hv, decode85_three]
  have hd4 := decode_encodeDigit ((b0 * 16777216 + b1 * 65536) / 52200625 % 85)
    (digitBound _ _)
  have hd3 := decode_encodeDigit ((b0 * 16777216 + b1 * 65536) / 614125 % 85)
    (digitBound _ _)
  have hd2 := decode_encodeDigit ((b0 * 16777216 + b1 * 65536) / 7225 % 85)
    (digitBound _ _)
  simp only [groupValue85, List.foldl, decodeDigit_pad, hd4, hd3, hd2,
    Nat.zero_mul, Nat.zero_add, List.cons.injEq, and_true]
  have c4 : (b0 * 16777216 + b1 * 65536) / 52200625
      = (b0 * 16777216 + b1 * 65536) / 7225 / 7225 := by
    rw [Nat.div_div_eq_div_mul]
  have c3 : (b0 * 16777216 + b1 * 65536) / 614125
      = (b0 * 16777216 + b1 * 65536) / 7225 / 85 := by
    rw [Nat.div_div_eq_div_mul]
  rw [c4, c3, recompose3 ((b0 * 16777216 + b1 * 65536) / 7225) (by omega)]
  have h5 := Nat.div_add_mod (b0 * 16777216 + b1 * 65536) 7225
  have h6 : (b0 * 16777216 + b1 * 65536) % 7225 < 7225 :=
    Nat.mod_lt _ (by norm_num)
  have hw : ((b0 * 16777216 + b1 * 65536) / 7225 * 85 + 84) * 85 + 84
      = 7225 * ((b0 * 16777216 + b1 * 65536) / 7225) + 7224 := by ring
  rw [hw]
  constructor
  · rw [show (7225 * ((b0 * 16777216 + b1 * 65536) / 7225) + 7224) / 16777216
        = b0 from Nat.div_eq_of_lt_le (by omega) (by omega)]
    exact Nat.mod_eq_of_lt h0
  · rw [show (7225 * ((b0 * 16777216 + b1 * 65536) / 7225) + 7224) / 65536
        = b0 * 256 + b1 from Nat.div_eq_of_lt_le (by omega) (by omega)]
    omega

/-- Trailing-group round trip, three residual bytes. -/
theorem tail3_roundtrip (b0 b1 b2 : Nat) (h0 : b0 < 256) (h1 : b1 < 256)
    (h2 : b2 < 256) :
    decode85 (encode85 [b0, b1, b2]) = [b0, b1, b2] := by
  have hv : groupValue [b0, b1, b2, 0]
      = b0 * 16777216 + b1 * 65536 + b2 * 256 := by
    simp only [groupValue, List.foldl]
    ring
  rw [encode85_three, hv, decode85_four]
  have hd4 := decode_encodeDigit
    ((b0 * 16777216 + b1 * 65536 + b2 * 256) / 52200625 % 85) (digitBound _ _)
  have hd3 := decode_encodeDigit
    ((b0 * 16777216 + b1 * 65536 + b2 * 256) / 614125 % 85) (digitBound _ _)
  have hd2 := decode_encodeDigit
    ((b0 * 16777216 + b1 * 65536 + b2 * 256) / 7225 % 85) (digitBound _ _)
  have hd1 := decode_encodeDigit
    ((b0 * 16777216 + b1 * 65536 + b2 * 256) / 85 % 85) (digitBound _ _)
  simp only [groupValue85, List.foldl, decodeDigit_pad, hd4, hd3, hd2, hd1,
    Nat.zero_mul, Nat.zero_add, List.cons.injEq, and_true]
  have c4 : (b0 * 16777216 + b1 * 65536 + b2 * 256) / 52200625
      = (b0 * 16777216 + b1 * 65536 + b2 * 256) / 85 / 614125 := by
    rw [Nat.div_div_eq_div_mul]
  have c3 : (b0 * 16777216 + b1 * 65536 + b2 * 256) / 614125
      = (b0 * 16777216 + b1 * 65536 + b2 * 256) / 85 / 7225 := by
    rw [Nat.div_div_eq_div_mul]
  have c2 : (b0 * 16777216 + b1 * 65536 + b2 * 256) / 7225
      = (b0 * 16777216 + b1 * 65536 + b2 * 256) / 85 / 85 := by
    rw [Nat.div_div_eq_div_mul]
  rw [c4, c3, c2,
    recompose4 ((b0 * 16777216 + b1 * 65536 + b2 * 256) / 85) (by omega)]
  have h5 := Nat.div_add_mod (b0 * 16777216 + b1 * 65536 + b2 * 256) 85
  have h6 : (b0 * 16777216 + b1 * 65536 + b2 * 256) % 85 < 85 :=
    Nat.mod_lt _ (by norm_num)
  have hw : (b0 * 16777216 + b1 * 65536 + b2 * 256) / 85 * 85 + 84
      = 85 * ((b0 * 16777216 + b1 * 65536 + b2 * 256) / 85) + 84 := by ring
  rw [hw]
  refine ⟨?_, ?_, ?_⟩
  · rw [show (85 * ((b0 * 16777216 + b1 * 65536 + b2 * 256) / 85) + 84)
        / 16777216 = b0 from Nat.div_eq_of_lt_le (by omega) (by omega)]
    exact Nat.mod_eq_of_lt h0
  · rw [show (85 * ((b0 * 16777216 + b1 * 65536 + b2 * 256) / 85) + 84)
        / 65536 = b0 * 256 + b1 from Nat.div_eq_of_lt_le (by omega) (by omega)]
    omega
  · rw [show (85 * ((b0 * 16777216 + b1 * 65536 + b2 * 256) / 85) + 84)
        / 256 = b0 * 65536 + b1 * 256 + b2
      from Nat.div_eq_of_lt_le (by omega) (by omega)]
    omega

theorem decode_encode85 (b : List Nat) (hb : ∀ x ∈ b, x < 256) :
    decode85 (encode85 b) = b := by
  match b with
  | [] => rfl
  | [b0] => exact tail1_roundtrip b0 (hb b0 (by simp))
  | [b0, b1] => exact tail2_roundtrip b0 b1 (hb b0 (by simp)) (hb b1 (by simp))
  | [b0, b1, b2] =>
    exact tail3_roundtrip b0 b1 b2 (hb b0 (by simp)) (hb b1 (by simp))
      (hb b2 (by simp))
  | b0 :: b1 :: b2 :: b3 :: rest =>
    have h0 : b0 < 256 := hb b0 (by simp)
    have h1 : b1 < 256 := hb b1 (by simp)
    have h2 : b2 < 256 := hb b2 (by simp)
    have h3 : b3 < 256 := hb b3 (by simp)
    have hrest : ∀ x ∈ rest, x < 256 := fun x hx => hb x (by simp [hx])
    have ih := decode_encode85 rest hrest
    have hgroup := group_roundtrip b0 b1 b2 b3 h0 h1 h2 h3
    simp only [encodeValue] at hgroup
    rw [encode85_group]
    simp only [encodeValue, List.cons_append, List.nil_append]
    rw [decode85_group, hgroup, ih]
    rfl

open Merge Demux

theorem findMinReady_ne_none (e : MEntry) (es : List MEntry) :
    findMinReady (e :: es) ≠ none := by
  cases hm : findMinReady es <;> simp [findMinReady, hm]
  split <;> simp

theorem findSettled_split (t : Nat) (es : List MEntry) (e : MEntry)
    (rest : List MEntry) (h : findSettled t es = some (e, rest)) :
    ∃ l₁ l₂, es = l₁ ++ e :: l₂ ∧ rest = l₁ ++ l₂ := by
  induction es generalizing rest with
  | nil => simp [findSettled] at h
  | cons a as ih =>
    by_cases ha : a.ready ≤ t
    · simp only [findSettled, if_pos ha, Option.some.injEq, Prod.mk.injEq] at h
      exact ⟨[], as, by simp [h.1, h.2]⟩
    · simp only [findSettled, if_neg ha] at h
      cases hfs : findSettled t as with
      | none => rw [hfs] at h; simp at h
      | some wr =>
        rw [hfs] at h
        simp only [Option.some.injEq, Prod.mk.injEq] at h
        obtain ⟨he, hrest⟩ := h
        obtain ⟨l₁, l₂, h1, h2⟩ := ih wr.2 (by rw [hfs, ← he])
        exact ⟨a :: l₁, l₂, by simp [h1], by simp [← hrest, h2]⟩

theorem findMinReady_split (es : List MEntry) (e : MEntry)
    (rest : List MEntry) (h : findMinReady es = some (e, rest)) :
    ∃ l₁ l₂, es = l₁ ++ e :: l₂ ∧ rest = l₁ ++ l₂ := by
  induction es generalizing rest with
  | nil => simp [findMinReady] at h
  | cons a as ih =>
    cases hm : findMinReady as with
    | none =>
      have has : as = [] := by
        cases as with
        | nil => rfl
        | cons b bs => exact absurd hm (findMinReady_ne_none b bs)
      subst has
      simp only [findMinReady, Option.some.injEq, Prod.mk.injEq] at h
      obtain ⟨he, hr⟩ := h
      exact ⟨[], [], by simp [← he], by simp [← hr]⟩
    | some wr =>
      simp only [findMinReady, hm] at h
      by_cases hr : a.ready ≤ wr.1.ready
      · rw [if_pos hr] at h
        simp only [Option.some.injEq, Prod.mk.injEq] at h
        exact ⟨[], as, by simp [h.1, h.2]⟩
      · rw [if_neg hr] at h
        simp only [Option.some.injEq, Prod.mk.injEq] at h
        obtain ⟨he, hrest⟩ := h
        obtain ⟨l₁, l₂, h1, h2⟩ := ih wr.2 (by rw [hm, ← he])
        exact ⟨a :: l₁, l₂, by simp [h1], by simp [← hrest, h2]⟩

theorem selectEntry_split (t : Nat) (es : List MEntry) (e : MEntry)
    (rest : List MEntry) (h : selectEntry t es = some (e, rest)) :
    ∃ l₁ l₂, es = l₁ ++ e :: l₂ ∧ rest = l₁ ++ l₂ := by
  unfold selectEntry at h
  cases hfs : findSettled t es with
  | none =>
    rw [hfs] at h
    exact findMinReady_split es e rest h
  | some wr =>
    rw [hfs] at h
    simp only [Option.some.injEq] at h
    exact findSettled_split t es e rest (by rw [hfs, h])

theorem totalSize_append (xs ys : List MEntry) :
    totalSize (xs ++ ys) = totalSize xs + totalSize ys := by
  simp [totalSize]

theorem totalSize_cons (x : MEntry) (xs : List MEntry) :
    totalSize (x :: xs) = x.steps.length + 1 + totalSize xs := by
  simp only [totalSize, List.map_cons, List.sum_cons]

theorem stepsTotal_append (xs ys : List MEntry) :
    stepsTotal (xs ++ ys) = stepsTotal xs + stepsTotal ys := by
  simp [stepsTotal]

theorem stepsTotal_cons (x : MEntry) (xs : List MEntry) :
    stepsTotal (x :: xs) = x.steps.length + stepsTotal xs := by
  simp only [stepsTotal, List.map_cons, List.sum_cons]

theorem selectEntry_eq_none (t : Nat) (es : List MEntry)
    (h : selectEntry t es = none) : es = [] := by
  cases es with
  | nil => rfl
  | cons a as =>
    exfalso
    unfold selectEntry at h
    cases hfs : findSettled t (a :: as) with
    | some wr => rw [hfs] at h; simp at h
    | none => rw [hfs] at h; exact findMinReady_ne_none a as h

theorem selectEntry_mem (t : Nat) (es : List MEntry) (w : MEntry)
    (rest : List MEntry) (hsel : selectEntry t es = some (w, rest)) :
    ∀ x, x ∈ es ↔ x = w ∨ x ∈ rest := by
  obtain ⟨l₁, l₂, hes, hrest⟩ := selectEntry_split t es w rest hsel
  subst hes hrest
  intro x
  simp only [List.mem_append, List.mem_cons]
  tauto

theorem selectEntry_nodup (t : Nat) (es : List MEntry) (w : MEntry)
    (rest : List MEntry) (hsel : selectEntry t es = some (w, rest))
    (hnd : (es.map MEntry.id).Nodup) :
    (w.id :: rest.map MEntry.id).Nodup := by
  obtain ⟨l₁, l₂, hes, hrest⟩ := selectEntry_split t es w rest hsel
  subst hes hrest
  have h1 : (l₁.map MEntry.id ++ MEntry.id w :: l₂.map MEntry.id).Nodup := by
    simpa using hnd
  have h2 := List.nodup_middle.mp h1
  simpa using h2

theorem selectEntry_size (t : Nat) (es : List MEntry) (w : MEntry)
    (rest : List MEntry) (hsel : selectEntry t es = some (w, rest)) :
    totalSize es = w.steps.length + 1 + totalSize rest := by
  obtain ⟨l₁, l₂, hes, hrest⟩ := selectEntry_split t es w rest hsel
  subst hes hrest
  rw [totalSize_append, totalSize_cons, totalSize_append]
  omega

theorem selectEntry_steps (t : Nat) (es : List MEntry) (w : MEntry)
    (rest : List MEntry) (hsel : selectEntry t es = some (w, rest)) :
    stepsTotal es = w.steps.length + stepsTotal rest := by
  obtain ⟨l₁, l₂, hes, hrest⟩ := selectEntry_split t es w rest hsel
  subst hes hrest
  rw [stepsTotal_append, stepsTotal_cons, stepsTotal_append]
  omega

theorem projChunks_cons (i : Nat) (x : Nat × Nat × Chunk)
    (out : List (Nat × Nat × Chunk)) :
    projChunks i (x :: out) =
      if x.2.1 = i then x.2.2 :: projChunks i out else projChunks i out := by
  by_cases h : x.2.1 = i <;> simp [projChunks, List.filterMap_cons, h]

theorem reenter_ids (rest : List MEntry) (e : MEntry)
    (more : List (Nat × Chunk)) (t : Nat) :
    (rest ++ [reenter e more t]).map MEntry.id
      = rest.map MEntry.id ++ [e.id] := by
  simp [reenter]

theorem projChunks_not_mem (fuel : Nat) : ∀ (t : Nat) (es : List MEntry)
    (i : Nat), i ∉ es.map MEntry.id →
    projChunks i (mergeRun fuel t es) = [] := by
  induction fuel with
  | zero => intro t es i _; rfl
  | succ fuel ih =>
    intro t es i hi
    cases hsel : selectEntry t es with
    | none => simp [mergeRun, hsel, projChunks]
    | some er =>
      obtain ⟨w, rest⟩ := er
      have hmem := selectEntry_mem t es w rest hsel
      have hwid : w.id ∈ es.map MEntry.id :=
        List.mem_map_of_mem MEntry.id ((hmem w).mpr (Or.inl rfl))
      have hidne : ¬ (w.id = i) := fun hc => hi (hc ▸ hwid)
      have hirest : i ∉ rest.map MEntry.id := by
        intro hc
        obtain ⟨x, hx, hxi⟩ := List.mem_map.mp hc
        exact hi (hxi ▸ List.mem_map_of_mem MEntry.id ((hmem x).mpr (Or.inr hx)))
      cases hst : w.steps with
      | nil =>
        simp only [mergeRun, hsel, hst]
        exact ih _ rest i hirest
      | cons dc more =>
        simp only [mergeRun, hsel, hst]
        rw [projChunks_cons, if_neg hidne]
        apply ih
        rw [reenter_ids]
        simp only [List.mem_append, List.mem_singleton]
        rintro (hc | hc)
        · exact hirest hc
        · exact hidne hc.symm

theorem totalSize_nil : totalSize [] = 0 := rfl

theorem stepsTotal_nil : stepsTotal [] = 0 := rfl

theorem reenter_steps (e : MEntry) (more : List (Nat × Chunk)) (t : Nat) :
    (reenter e more t).steps = more := rfl

theorem mergeRun_proj (fuel : Nat) : ∀ (t : Nat) (es : List MEntry)
    (e : MEntry), totalSize es ≤ fuel → (es.map MEntry.id).Nodup → e ∈ es →
    projChunks e.id (mergeRun fuel t es) = e.steps.map Prod.snd := by
  induction fuel with
  | zero =>
    intro t es e hfuel _ he
    exfalso
    obtain ⟨s, u, rfl⟩ := List.append_of_mem he
    rw [totalSize_append, totalSize_cons] at hfuel
    omega
  | succ fuel ih =>
    intro t es e hfuel hnd he
    cases hsel : selectEntry t es with
    | none =>
      exfalso
      rw [selectEntry_eq_none t es hsel] at he
      exact absurd he (List.not_mem_nil e)
    | some er =>
      obtain ⟨w, rest⟩ := er
      have hmem := selectEntry_mem t es w rest hsel
      have hnodup2 := selectEntry_nodup t es w rest hsel hnd
      have hsize := selectEntry_size t es w rest hsel
      by_cases hew : e = w
      · subst hew
        cases hst : e.steps with
        | nil =>
          simp only [mergeRun, hsel, hst]
          rw [projChunks_not_mem fuel _ rest e.id
            (List.nodup_cons.mp hnodup2).1]
          rfl
        | cons dc more =>
          obtain ⟨d, c⟩ := dc
          rw [hst] at hsize
          simp only [List.length_cons] at hsize
          simp only [mergeRun, hsel, hst]
          rw [projChunks_cons, if_pos rfl]
          have hrec : projChunks e.id (mergeRun fuel (max t e.ready)
              (rest ++ [reenter e more (max t e.ready)]))
              = List.map Prod.snd more :=
            ih (max t e.ready) _ (reenter e more (max t e.ready))
              (by
                rw [totalSize_append, totalSize_cons, totalSize_nil,
                  reenter_steps]
                omega)
              (by
                rw [reenter_ids]
                have h3 : ([e.id] ++ rest.map MEntry.id).Nodup := hnodup2
                exact List.nodup_append_comm.mp h3)
              (by simp)
          rw [hrec]
          rfl
      · have hesr : e ∈ rest := by
          rcases (hmem e).mp he with h | h
          · exact absurd h hew
          · exact h
        have hidne : ¬ (w.id = e.id) := by
          intro hc
          have hm : e.id ∈ rest.map MEntry.id :=
            List.mem_map_of_mem MEntry.id hesr
          rw [← hc] at hm
          exact (List.nodup_cons.mp hnodup2).1 hm
        have hndrest : (rest.map MEntry.id).Nodup :=
          (List.nodup_cons.mp hnodup2).2
        cases hst : w.steps with
        | nil =>
          rw [hst] at hsize
          simp only [List.length_nil] at hsize
          simp only [mergeRun, hsel, hst]
          exact ih _ rest e (by omega) hndrest hesr
        | cons dc more =>
          obtain ⟨d, c⟩ := dc
          rw [hst] at hsize
          simp only [List.length_cons] at hsize
          simp only [mergeRun, hsel, hst]
          rw [projChunks_cons, if_neg hidne]
          apply ih _ _ e
          · rw [totalSize_append, totalSize_cons, totalSize_nil,
              reenter_steps]
            omega
          · rw [reenter_ids]
            exact List.nodup_append_comm.mp hnodup2
          · simp [hesr]

theorem mergeRun_length (fuel : Nat) : ∀ (t : Nat) (es : List MEntry),
    totalSize es ≤ fuel → (mergeRun fuel t es).length = stepsTotal es := by
  induction fuel with
  | zero =>
    intro t es hfuel
    cases es with
    | nil => rfl
    | cons a as => rw [totalSize_cons] at hfuel; omega
  | succ fuel ih =>
    intro t es hfuel
    cases hsel : selectEntry t es with
    | none =>
      rw [selectEntry_eq_none t es hsel]
      rfl
    | some er =>
      obtain ⟨w, rest⟩ := er
      have hsize := selectEntry_size t es w rest hsel
      have hsteps := selectEntry_steps t es w rest hsel
      cases hst : w.steps with
      | nil =>
        rw [hst] at hsize hsteps
        simp only [List.length_nil] at hsize hsteps
        simp only [mergeRun, hsel, hst]
        rw [ih _ rest (by omega), hsteps]
        omega
      | cons dc more =>
        obtain ⟨d, c⟩ := dc
        rw [hst] at hsize hsteps
        simp only [List.length_cons] at hsize hsteps
        simp only [mergeRun, hsel, hst, List.length_cons]
        rw [ih _ (rest ++ [reenter w more (max t w.ready)])
          (by
            rw [totalSize_append, totalSize_cons, totalSize_nil,
              reenter_steps]
            omega)]
        rw [stepsTotal_append, stepsTotal_cons, stepsTotal_nil,
          reenter_steps]
        omega

theorem suspState_ids (fuel : Nat) : ∀ (k t : Nat) (es : List MEntry)
    (e : MEntry) (rest : List MEntry), (es.map MEntry.id).Nodup →
    suspState fuel k t es = some (e, rest) →
    (e.id :: rest.map MEntry.id).Nodup := by
  induction fuel with
  | zero => intro k t es e rest _ h; exact absurd h (by simp [suspState])
  | succ fuel ih =>
    intro k t es e rest hnd h
    cases hsel : selectEntry t es with
    | none => rw [suspState, hsel] at h; exact absurd h (by simp)
    | some er =>
      obtain ⟨w, restw⟩ := er
      have hnodup2 := selectEntry_nodup t es w restw hsel hnd
      cases hst : w.steps with
      | nil =>
        rw [suspState, hsel] at h
        simp only [hst] at h
        exact ih k _ restw e rest (List.nodup_cons.mp hnodup2).2 h
      | cons dc more =>
        obtain ⟨d, c⟩ := dc
        rw [suspState, hsel] at h
        simp only [hst] at h
        by_cases hk : k ≤ 1
        · rw [if_pos hk] at h
          simp only [Option.some.injEq, Prod.mk.injEq] at h
          rw [← h.1, ← h.2]
          exact hnodup2
        · rw [if_neg hk] at h
          have hnd2 : ((restw ++ [reenter w more (max t w.ready)]).map
              MEntry.id).Nodup := by
            rw [reenter_ids]
            exact List.nodup_append_comm.mp hnodup2
          exact ih (k - 1) _ _ e rest hnd2 h

theorem flattenA_mapSpecs
    (fp : Nat × Except String String → Nat × Except String String)
    (fs : List (Nat × String) × Nat × Except String String
        → List (Nat × String) × Nat × Except String String) :
    ∀ (v : AsyncJs.AVal) (c : Nat),
      (AsyncJs.flattenA (AsyncJs.mapSpecs fp fs v) c).1
          = (AsyncJs.flattenA v c).1
      ∧ (AsyncJs.flattenA (AsyncJs.mapSpecs fp fs v) c).2.1
          = (AsyncJs.flattenA v c).2.1 := by
  intro v
  induction v with
  | atom s => intro c; exact ⟨rfl, rfl⟩
  | promiseV d out => intro c; exact ⟨rfl, rfl⟩
  | aiterV ys d term => intro c; exact ⟨rfl, rfl⟩
  | pairV a b iha ihb =>
    intro c
    have h1 := iha c
    have h2 := ihb (AsyncJs.flattenA a c).2.1
    constructor
    · simp only [AsyncJs.mapSpecs, AsyncJs.flattenA]
      rw [h1.1, h1.2, h2.1]
    · simp only [AsyncJs.mapSpecs, AsyncJs.flattenA]
      rw [h1.2, h2.2]

theorem range'_append_one (m : Nat) : ∀ (s n : Nat),
    List.range' s m ++ List.range' (s + m) n = List.range' s (m + n) := by
  induction m with
  | zero => intro s n; simp
  | succ m ihm =>
    intro s n
    rw [List.range'_succ, show s + (m + 1) = (s + 1) + m by omega,
      List.cons_append, ihm (s + 1) n,
      show m + 1 + n = (m + n) + 1 by omega, List.range'_succ]

theorem flattenA_ids : ∀ (v : AsyncJs.AVal) (c : Nat),
    (AsyncJs.flattenA v c).2.1 = c + AsyncJs.numSources v
    ∧ (AsyncJs.flattenA v c).2.2.map MEntry.id
      = List.range' (c + 1) (AsyncJs.numSources v) := by
  intro v
  induction v with
  | atom s => intro c; exact ⟨rfl, rfl⟩
  | promiseV d out => intro c; exact ⟨rfl, rfl⟩
  | aiterV ys d term => intro c; exact ⟨rfl, rfl⟩
  | pairV a b iha ihb =>
    intro c
    have h1 := iha c
    have h2 := ihb (AsyncJs.flattenA a c).2.1
    constructor
    · simp only [AsyncJs.flattenA, AsyncJs.numSources]
      rw [h2.1, h1.1]
      omega
    · simp only [AsyncJs.flattenA, AsyncJs.numSources, List.map_append]
      rw [h1.2, h2.2, h1.1,
        show c + AsyncJs.numSources a + 1 = (c + 1) + AsyncJs.numSources a
          by omega,
        range'_append_one]

theorem sessionIds_preInc (n : Nat) : ∀ (c : Nat),
    sessionIds AsyncJs.registerAsyncAlloc n c = List.range' (c + 1) n := by
  induction n with
  | zero => intro c; rfl
  | succ n ihn =>
    intro c
    show (c + 1) :: sessionIds AsyncJs.registerAsyncAlloc n (c + 1)
      = List.range' (c + 1) (n + 1)
    rw [ihn (c + 1), List.range'_succ]

theorem sessionIds_postInc (n : Nat) : ∀ (c : Nat),
    sessionIds Part000.registerAsyncIterableAlloc n c = List.range' c n := by
  induction n with
  | zero => intro c; rfl
  | succ n ihn =>
    intro c
    show c :: sessionIds Part000.registerAsyncIterableAlloc n (c + 1)
      = List.range' c (n + 1)
    rw [ihn (c + 1), List.range'_succ]

theorem streamResult_error (pre : List Chunk) (e : String)
    (rest : List (Except String Chunk)) :
    AsyncJs.streamResult (pre.map Except.ok ++ Except.error e :: rest)
      = Except.error e := by
  induction pre with
  | nil => rfl
  | cons c cs ihc =>
    simp only [List.map_cons, List.cons_append]
    rw [show AsyncJs.streamResult (Except.ok c ::
          (List.map Except.ok cs ++ Except.error e :: rest))
        = (AsyncJs.streamResult
            (List.map Except.ok cs ++ Except.error e :: rest)).map
              (fun l => c :: l) from rfl, ihc]
    rfl

theorem enqueueTo_not_mem (m : ChanMap) (idx : Nat) (x : PItem)
    (h : idx ∉ m.map Prod.fst) : enqueueTo m idx x = m := by
  induction m with
  | nil => rfl
  | cons p ps ihp =>
    simp only [List.map_cons, List.mem_cons, not_or] at h
    simp only [enqueueTo, List.map_cons] at ihp ⊢
    rw [if_neg (fun hc => h.1 hc.symm), ihp h.2]

theorem broadcastErr_mem (m : ChanMap) (msg : String) (i : Nat)
    (buf : List PItem) (h : (i, buf) ∈ broadcastErr m msg) :
    ∃ xs, buf = xs ++ [PItem.interrupted msg] := by
  simp only [broadcastErr, List.mem_map] at h
  obtain ⟨p, _, hp⟩ := h
  simp only [Prod.mk.injEq] at hp
  exact ⟨p.2, hp.2.symm⟩

theorem pumpParseAsync_interrupts
    (lines : List (Option (Nat × Nat × String))) :
    ∀ (ending : Option String) (m : ChanMap) (i : Nat) (buf : List PItem),
    (i, buf) ∈ AsyncJs.pumpParseAsync lines ending m →
    ∃ xs msg, buf = xs ++ [PItem.interrupted msg] := by
  induction lines with
  | nil =>
    intro ending m i buf h
    cases ending with
    | none =>
      obtain ⟨xs, hx⟩ := broadcastErr_mem m _ i buf h
      exact ⟨xs, _, hx⟩
    | some c =>
      obtain ⟨xs, hx⟩ := broadcastErr_mem m _ i buf h
      exact ⟨xs, _, hx⟩
  | cons l rest ihl =>
    intro ending m i buf h
    cases l with
    | some wl =>
      simp only [AsyncJs.pumpParseAsync] at h
      exact ihl ending _ i buf h
    | none =>
      simp only [AsyncJs.pumpParseAsync] at h
      obtain ⟨xs, hx⟩ := broadcastErr_mem m _ i buf h
      exact ⟨xs, _, hx⟩

theorem pumpPart002_interrupts
    (lines : List (Option (Nat × Nat × String))) :
    ∀ (cause : String) (m : ChanMap) (i : Nat) (buf : List PItem),
    (i, buf) ∈ Part002.pumpParseAsyncIterable lines (some cause) m →
    ∃ xs msg, buf = xs ++ [PItem.interrupted msg] := by
  induction lines with
  | nil =>
    intro cause m i buf h
    obtain ⟨xs, hx⟩ := broadcastErr_mem m _ i buf h
    exact ⟨xs, _, hx⟩
  | cons l rest ihl =>
    intro cause m i buf h
    cases l with
    | some wl =>
      simp only [Part002.pumpParseAsyncIterable] at h
      exact ihl cause _ i buf h
    | none =>
      simp only [Part002.pumpParseAsyncIterable] at h
      obtain ⟨xs, hx⟩ := broadcastErr_mem m _ i buf h
      exact ⟨xs, _, hx⟩

theorem aiterSteps_map_snd (ys : List (Nat × String)) (d : Nat)
    (cause : String) :
    (AsyncJs.aiterSteps ys d (Except.error cause)).map Prod.snd
      = ys.map (fun p => Chunk.mk AsyncJs.ASYNC_ITERABLE_STATUS_YIELD p.2)
        ++ [Chunk.mk AsyncJs.ASYNC_ITERABLE_STATUS_ERROR cause] := by
  simp [AsyncJs.aiterSteps, List.map_append, List.map_map, Function.comp]

/-- Claim C1 (amended): `parseAsync`'s pump delivers a synthetic
stream-interrupted error to every registered channel both when the
transport ends cleanly while channels are open and when the pump fails;
`parseAsyncIterable`'s pump (part_002) broadcasts the synthetic error only
when the pump fails - a cleanly truncated transport leaves its open
channels without any further item (see the counterexample). -/
theorem claim_C1_amended :
    (∀ (lines : List (Option (Nat × Nat × String))) (ending : Option String)
        (m : ChanMap) (i : Nat) (buf : List PItem),
      (i, buf) ∈ AsyncJs.pumpParseAsync lines ending m →
      ∃ xs msg, buf = xs ++ [PItem.interrupted msg])
    ∧ (∀ (lines : List (Option (Nat × Nat × String))) (cause : String)
        (m : ChanMap) (i : Nat) (buf : List PItem),
      (i, buf) ∈ Part002.pumpParseAsyncIterable lines (some cause) m →
      ∃ xs msg, buf = xs ++ [PItem.interrupted msg]) :=
  ⟨fun lines => pumpParseAsync_interrupts lines,
   fun lines => pumpPart002_interrupts lines⟩

/-- Claim C1 is false as stated for `parseAsyncIterable` (part_002): when
the transport ends cleanly (`result.done`) with channel 1 still registered
and open, the pump delivers nothing - the channel's buffer stays empty and
its consumer waits forever. -/
theorem claim_C1_counterexample :
    ¬ ∀ (i : Nat) (buf : List PItem),
        (i, buf) ∈ Part002.pumpParseAsyncIterable [] none [(1, [])] →
        ∃ xs msg, buf = xs ++ [PItem.interrupted msg] := by
  intro h
  obtain ⟨xs, msg, hx⟩ := h 1 [] (by decide)
  simp at hx

theorem claim_C1_witness :
    ∃ xs msg,
      ([PItem.val 0 "v",
        PItem.interrupted "Stream interrupted: malformed stream"]
          : List PItem)
        = xs ++ [PItem.interrupted msg] :=
  claim_C1_amended.1 [some (1, 0, "v")] none [(1, [])] 1
    [PItem.val 0 "v",
      PItem.interrupted "Stream interrupted: malformed stream"]
    (by decide)

/-- Claim C2: the first element yielded by `stringifyAsync` is the complete
flattened encoding of the top-level value with each pending source replaced
by its channel id; it is produced without awaiting any pending source (the
head line is invariant under arbitrary changes to every source's timing and
outcome), and no channel chunk is emitted before the head chunk. -/
theorem claim_C2 (v : AsyncJs.AVal)
    (fp : Nat × Except String String → Nat × Except String String)
    (fs : List (Nat × String) × Nat × Except String String
        → List (Nat × String) × Nat × Except String String) :
    (AsyncJs.stringifyAsyncTrace v).head?
      = some (AsyncJs.OutLine.headLine (AsyncJs.flattenA v 0).1)
    ∧ (∀ l ∈ (AsyncJs.stringifyAsyncTrace v).tail,
        ∃ i s p, l = AsyncJs.OutLine.chunkLine i s p)
    ∧ (AsyncJs.flattenA (AsyncJs.mapSpecs fp fs v) 0).1
        = (AsyncJs.flattenA v 0).1 := by
  refine ⟨rfl, ?_, (flattenA_mapSpecs fp fs v 0).1⟩
  intro l hl
  simp only [AsyncJs.stringifyAsyncTrace, List.tail_cons, List.mem_map] at hl
  obtain ⟨x, _, rfl⟩ := hl
  exact ⟨x.2.1, x.2.2.status, x.2.2.payload, rfl⟩

theorem claim_C2_witness :
    (AsyncJs.stringifyAsyncTrace
        (AsyncJs.AVal.pairV (AsyncJs.AVal.atom "x")
          (AsyncJs.AVal.promiseV 2 (Except.ok "42")))).head?
      = some (AsyncJs.OutLine.headLine
          (AsyncJs.Flat.pairF (AsyncJs.Flat.atom "x")
            (AsyncJs.Flat.pendingSingle 1)))
    ∧ ∃ i s p,
        AsyncJs.OutLine.chunkLine 1 AsyncJs.PROMISE_STATUS_FULFILLED "42"
          = AsyncJs.OutLine.chunkLine i s p := by
  have h := claim_C2
    (AsyncJs.AVal.pairV (AsyncJs.AVal.atom "x")
      (AsyncJs.AVal.promiseV 2 (Except.ok "42"))) id id
  refine ⟨h.1, ?_⟩
  exact h.2.1 (AsyncJs.OutLine.chunkLine 1 AsyncJs.PROMISE_STATUS_FULFILLED
    "42") (by decide)

/-- Claim C3 (amended): src/src/async.js uses fulfilled=0/rejected=1 and
yield=0, error=1, return=2, and its demultiplexer dispatch agrees with its
serializer's codes; part_002 also uses fulfilled=0/rejected=1 but orders
its sequence codes yield=0, return=1, error=2 (contradicting the claim's
error=1/return=2 for that file), again consistently between its serializer
and its demultiplexer. -/
theorem claim_C3_amended :
    (AsyncJs.PROMISE_STATUS_FULFILLED = 0
      ∧ AsyncJs.PROMISE_STATUS_REJECTED = 1
      ∧ AsyncJs.ASYNC_ITERABLE_STATUS_YIELD = 0
      ∧ AsyncJs.ASYNC_ITERABLE_STATUS_ERROR = 1
      ∧ AsyncJs.ASYNC_ITERABLE_STATUS_RETURN = 2)
    ∧ (Part002.PROMISE_STATUS_FULFILLED = 0
      ∧ Part002.PROMISE_STATUS_REJECTED = 1
      ∧ Part002.ASYNC_ITERABLE_STATUS_YIELD = 0
      ∧ Part002.ASYNC_ITERABLE_STATUS_RETURN = 1
      ∧ Part002.ASYNC_ITERABLE_STATUS_ERROR = 2)
    ∧ (Part000.PROMISE_STATUS_FULFILLED = 0
      ∧ Part000.PROMISE_STATUS_REJECTED = 1)
    ∧ (AsyncJs.promiseDispatch AsyncJs.PROMISE_STATUS_FULFILLED
        = AsyncJs.PromiseAct.resolveP
      ∧ AsyncJs.promiseDispatch AsyncJs.PROMISE_STATUS_REJECTED
        = AsyncJs.PromiseAct.rejectP)
    ∧ (AsyncJs.seqDispatch (AsyncJs.seqStatusOf AsyncJs.SeqEvent.yieldEv)
        = AsyncJs.SeqAct.yieldA
      ∧ AsyncJs.seqDispatch (AsyncJs.seqStatusOf AsyncJs.SeqEvent.returnEv)
        = AsyncJs.SeqAct.returnA
      ∧ AsyncJs.seqDispatch (AsyncJs.seqStatusOf AsyncJs.SeqEvent.errorEv)
        = AsyncJs.SeqAct.errorA)
    ∧ (Part002.seqDispatch (Part002.seqStatusOf Part002.SeqEvent.yieldEv)
        = Part002.SeqAct.yieldA
      ∧ Part002.seqDispatch (Part002.seqStatusOf Part002.SeqEvent.returnEv)
        = Part002.SeqAct.returnA
      ∧ Part002.seqDispatch (Part002.seqStatusOf Part002.SeqEvent.errorEv)
        = Part002.SeqAct.errorA) := by
  refine ⟨⟨rfl, rfl, rfl, rfl, rfl⟩, ⟨rfl, rfl, rfl, rfl, rfl⟩, ⟨rfl, rfl⟩,
    ⟨by decide, by decide⟩, ⟨by decide, by decide, by decide⟩,
    ⟨by decide, by decide, by decide⟩⟩

/-- Claim C3 is false as stated: in part_002 the sequence status codes are
return=1 and error=2, not error=1 and return=2. -/
theorem claim_C3_counterexample :
    ¬ (Part002.ASYNC_ITERABLE_STATUS_ERROR = 1
      ∧ Part002.ASYNC_ITERABLE_STATUS_RETURN = 2) := by
  decide

/-- Claim C4 (amended): `stringifyAsync` (src/src/async.js) and
`stringifyAsyncIterable` (part_002) allocate channel ids 1, 2, 3, ... -
pre-increment `++counter` - while `stringifyStream` (part_000) allocates
0, 1, 2, ... - post-increment `counter++`, so its first id is 0, not 1.
In all three, each new source gets the previous id plus one and no id is
ever assigned twice; in `stringifyAsync` the ids assigned during a
flattening that starts at counter `c` are exactly `c+1, ..., c+n`. -/
theorem claim_C4_amended :
    (∀ n c, sessionIds AsyncJs.registerAsyncAlloc n c
        = List.range' (c + 1) n)
    ∧ (∀ n c, sessionIds Part002.registerAsyncIterableAlloc n c
        = List.range' (c + 1) n)
    ∧ (∀ n c, sessionIds Part000.registerAsyncIterableAlloc n c
        = List.range' c n)
    ∧ (∀ n c, (sessionIds AsyncJs.registerAsyncAlloc n c).Nodup)
    ∧ (∀ n c, (sessionIds Part002.registerAsyncIterableAlloc n c).Nodup)
    ∧ (∀ n c, (sessionIds Part000.registerAsyncIterableAlloc n c).Nodup)
    ∧ (∀ (v : AsyncJs.AVal) (c : Nat),
        (AsyncJs.flattenA v c).2.2.map MEntry.id
          = List.range' (c + 1) (AsyncJs.numSources v)) := by
  have h002 : Part002.registerAsyncIterableAlloc
      = AsyncJs.registerAsyncAlloc := rfl
  refine ⟨fun n c => sessionIds_preInc n c,
    fun n c => by rw [h002]; exact sessionIds_preInc n c,
    fun n c => sessionIds_postInc n c,
    fun n c => by rw [sessionIds_preInc]; exact List.nodup_range' ..,
    fun n c => by rw [h002, sessionIds_preInc]; exact List.nodup_range' ..,
    fun n c => by rw [sessionIds_postInc]; exact List.nodup_range' ..,
    fun v c => (flattenA_ids v c).2⟩

/-- Claim C4 is false as stated: the first channel id `stringifyStream`
(part_000) allocates in a fresh session is 0, not 1. -/
theorem claim_C4_counterexample :
    (sessionIds Part000.registerAsyncIterableAlloc 1 0).head? ≠ some 1 := by
  decide

/-- Claim C5: within one channel, the chunks of `stringifyAsync`'s merged
output appear exactly in the order the channel's source produced them (the
projection of the race loop's output onto any registered channel equals
that source's own chunk list, for any schedule of settlement times), while
across channels whichever registered step settles first is emitted first:
in the spec's scenario, source A settling at t=100 and source B at t=10,
B's chunk is emitted before A's. -/
theorem claim_C5 :
    (∀ (fuel t : Nat) (es : List MEntry) (e : MEntry),
        totalSize es ≤ fuel → (es.map MEntry.id).Nodup → e ∈ es →
        projChunks e.id (mergeRun fuel t es) = e.steps.map Prod.snd)
    ∧ mergeRunAll
        [mkEntry 1 [(100, Chunk.mk 0 "A")], mkEntry 2 [(10, Chunk.mk 0 "B")]]
      = [(10, 2, Chunk.mk 0 "B"), (100, 1, Chunk.mk 0 "A")] :=
  ⟨mergeRun_proj, by decide⟩

theorem claim_C5_witness :
    projChunks 1 (mergeRun 4 0
        [mkEntry 1 [(100, Chunk.mk 0 "A")], mkEntry 2 [(10, Chunk.mk 0 "B")]])
      = [Chunk.mk 0 "A"] := by
  have h := claim_C5.1 4 0
    [mkEntry 1 [(100, Chunk.mk 0 "A")], mkEntry 2 [(10, Chunk.mk 0 "B")]]
    (mkEntry 1 [(100, Chunk.mk 0 "A")]) (by decide) (by decide) (by decide)
  simpa using h

/-- Claim C6: in a `stringifyAsync` session, a pending source whose error
the reducer set can serialize produces exactly one terminal chunk on its
own channel and closes only that channel: a rejected promise's channel
carries exactly the single rejected-status chunk, a throwing sequence's
channel carries its yields followed by exactly one error-status chunk,
every sibling channel still delivers its complete chunk list, and the
overall output contains every chunk of every source (the stream does not
abort). -/
theorem claim_C6 (es : List MEntry) (hnd : (es.map MEntry.id).Nodup) :
    (∀ i d cause,
        mkEntry i (AsyncJs.promiseSteps d (Except.error cause)) ∈ es →
        projChunks i (mergeRunAll es)
          = [Chunk.mk AsyncJs.PROMISE_STATUS_REJECTED cause])
    ∧ (∀ i ys d cause,
        mkEntry i (AsyncJs.aiterSteps ys d (Except.error cause)) ∈ es →
        projChunks i (mergeRunAll es)
          = ys.map (fun p => Chunk.mk AsyncJs.ASYNC_ITERABLE_STATUS_YIELD p.2)
            ++ [Chunk.mk AsyncJs.ASYNC_ITERABLE_STATUS_ERROR cause])
    ∧ (∀ e ∈ es, projChunks e.id (mergeRunAll es) = e.steps.map Prod.snd)
    ∧ (mergeRunAll es).length = stepsTotal es := by
  refine ⟨?_, ?_, ?_, mergeRun_length (totalSize es) 0 es le_rfl⟩
  · intro i d cause hmem
    have h := mergeRun_proj (totalSize es) 0 es _ le_rfl hnd hmem
    simpa [mkEntry, AsyncJs.promiseSteps] using h
  · intro i ys d cause hmem
    have h := mergeRun_proj (totalSize es) 0 es _ le_rfl hnd hmem
    rw [show (mkEntry i (AsyncJs.aiterSteps ys d (Except.error cause))).steps
        = AsyncJs.aiterSteps ys d (Except.error cause) from rfl,
      aiterSteps_map_snd] at h
    exact h
  · intro e he
    exact mergeRun_proj (totalSize es) 0 es e le_rfl hnd he

theorem claim_C6_witness :
    projChunks 1 (mergeRunAll
        [mkEntry 1 (AsyncJs.promiseSteps 5 (Except.error "boom")),
         mkEntry 2 (AsyncJs.aiterSteps [(1, "y1")] 3 (Except.error "crash")),
         mkEntry 3 [(7, Chunk.mk 0 "ok")]])
      = [Chunk.mk AsyncJs.PROMISE_STATUS_REJECTED "boom"]
    ∧ projChunks 2 (mergeRunAll
        [mkEntry 1 (AsyncJs.promiseSteps 5 (Except.error "boom")),
         mkEntry 2 (AsyncJs.aiterSteps [(1, "y1")] 3 (Except.error "crash")),
         mkEntry 3 [(7, Chunk.mk 0 "ok")]])
      = [(1, "y1")].map
          (fun p => Chunk.mk AsyncJs.ASYNC_ITERABLE_STATUS_YIELD p.2)
        ++ [Chunk.mk AsyncJs.ASYNC_ITERABLE_STATUS_ERROR "crash"]
    ∧ (mergeRunAll
        [mkEntry 1 (AsyncJs.promiseSteps 5 (Except.error "boom")),
         mkEntry 2 (AsyncJs.aiterSteps [(1, "y1")] 3 (Except.error "crash")),
         mkEntry 3 [(7, Chunk.mk 0 "ok")]]).length
      = stepsTotal
        [mkEntry 1 (AsyncJs.promiseSteps 5 (Except.error "boom")),
         mkEntry 2 (AsyncJs.aiterSteps [(1, "y1")] 3 (Except.error "crash")),
         mkEntry 3 [(7, Chunk.mk 0 "ok")]] := by
  have h := claim_C6
    [mkEntry 1 (AsyncJs.promiseSteps 5 (Except.error "boom")),
     mkEntry 2 (AsyncJs.aiterSteps [(1, "y1")] 3 (Except.error "crash")),
     mkEntry 3 [(7, Chunk.mk 0 "ok")]] (by decide)
  exact ⟨h.1 1 5 "boom" (by decide),
    h.2.1 2 [(1, "y1")] 3 "crash" (by decide), h.2.2.2⟩

/-- Claim C7: in `stringifyAsync`, when a rejection cause cannot be
serialized by the extended reducer set, the serialization error fails the
whole stream if `options.coerceError` is absent, and if the supplied
`coerceError` hook itself throws, that exception likewise fails the whole
stream - in either case the overall outcome is the error, not a list of
chunks, regardless of how many sibling chunks were pending. -/
theorem claim_C7 (stringifyE : String → Except String String)
    (cause exn : String) (pre post : List Chunk)
    (h : stringifyE cause = Except.error exn) :
    AsyncJs.streamResult (pre.map Except.ok
        ++ AsyncJs.rejectedChunk stringifyE none cause :: post.map Except.ok)
      = Except.error exn
    ∧ ∀ (f : String → Except String String) (exn2 : String),
        f cause = Except.error exn2 →
        AsyncJs.streamResult (pre.map Except.ok
            ++ AsyncJs.rejectedChunk stringifyE (some f) cause
              :: post.map Except.ok)
          = Except.error exn2 := by
  constructor
  · have hrc : AsyncJs.rejectedChunk stringifyE none cause
        = Except.error exn := by
      simp [AsyncJs.rejectedChunk, AsyncJs.safeCause, h, Except.map]
    rw [hrc]
    exact streamResult_error pre exn (post.map Except.ok)
  · intro f exn2 hf
    have hrc : AsyncJs.rejectedChunk stringifyE (some f) cause
        = Except.error exn2 := by
      simp [AsyncJs.rejectedChunk, AsyncJs.safeCause, h, hf, Except.map]
    rw [hrc]
    exact streamResult_error pre exn2 (post.map Except.ok)

theorem claim_C7_witness :
    AsyncJs.streamResult ([Chunk.mk 0 "x"].map Except.ok
        ++ AsyncJs.rejectedChunk (fun _ => Except.error "unser") none "bad"
          :: ([] : List Chunk).map Except.ok)
      = Except.error "unser"
    ∧ AsyncJs.streamResult ([Chunk.mk 0 "x"].map Except.ok
        ++ AsyncJs.rejectedChunk (fun _ => Except.error "unser")
            (some fun _ => Except.error "hook") "bad"
          :: ([] : List Chunk).map Except.ok)
      = Except.error "hook" := by
  have h := claim_C7 (fun _ => Except.error "unser") "bad" "unser"
    [Chunk.mk 0 "x"] [] rfl
  exact ⟨h.1, h.2 (fun _ => Except.error "hook") "hook" rfl⟩

/-- Claim C8 (amended): on early consumer cancellation no source's cleanup
is ever invoked more than once, and after the `k`-th channel chunk
(`k ≥ 1`) exactly the members of the merge's active set at that suspension
are cleaned, each exactly once - but the source whose chunk was just
delivered is not among them (it was deleted from `activeIterators` before
the `yield` and is only re-added afterwards), and cancellation right after
the head line cleans nothing, because `stringifyAsync` has no try/finally
and the merge loop was never entered. -/
theorem claim_C8_amended (es : List MEntry) (k : Nat)
    (hnd : (es.map MEntry.id).Nodup) :
    (cancelCleanup es k).Nodup
    ∧ cancelCleanup es 0 = []
    ∧ ∀ (e : MEntry) (rest : List MEntry), k ≠ 0 →
        suspState (totalSize es) k 0 es = some (e, rest) →
        cancelCleanup es k = rest.map MEntry.id
        ∧ e.id ∉ cancelCleanup es k
        ∧ ∀ r ∈ rest, (cancelCleanup es k).count r.id = 1 := by
  refine ⟨?_, by simp [cancelCleanup], ?_⟩
  · unfold cancelCleanup
    by_cases hk0 : k = 0
    · rw [if_pos hk0]
      exact List.nodup_nil
    · rw [if_neg hk0]
      cases hss : suspState (totalSize es) k 0 es with
      | none => exact List.nodup_nil
      | some er =>
        obtain ⟨e, rest⟩ := er
        exact (List.nodup_cons.mp
          (suspState_ids (totalSize es) k 0 es e rest hnd hss)).2
  · intro e rest hk hss
    have hids := suspState_ids (totalSize es) k 0 es e rest hnd hss
    have hcc : cancelCleanup es k = rest.map MEntry.id := by
      unfold cancelCleanup
      rw [if_neg hk, hss]
    refine ⟨hcc, ?_, ?_⟩
    · rw [hcc]
      exact (List.nodup_cons.mp hids).1
    · intro r hr
      rw [hcc]
      exact List.count_eq_one_of_mem (List.nodup_cons.mp hids).2
        (List.mem_map_of_mem MEntry.id hr)

/-- Claim C8 is false as stated: cancelling right after the first chunk of
a source that still has another chunk pending invokes no cleanup at all for
that source - it was deleted from `activeIterators` before the `yield` - so
its cleanup contract is invoked zero times, not exactly once. -/
theorem claim_C8_counterexample :
    suspState
        (totalSize [mkEntry 1 [(0, Chunk.mk 0 "x"), (0, Chunk.mk 0 "y")]])
        1 0 [mkEntry 1 [(0, Chunk.mk 0 "x"), (0, Chunk.mk 0 "y")]]
      = some (mkEntry 1 [(0, Chunk.mk 0 "x"), (0, Chunk.mk 0 "y")], [])
    ∧ (cancelCleanup [mkEntry 1 [(0, Chunk.mk 0 "x"), (0, Chunk.mk 0 "y")]]
        1).count 1 = 0 := by
  decide

theorem claim_C8_witness :
    cancelCleanup [mkEntry 1 [(0, Chunk.mk 0 "x"), (0, Chunk.mk 0 "y")],
        mkEntry 2 [(1, Chunk.mk 0 "z")]] 1
      = [mkEntry 2 [(1, Chunk.mk 0 "z")]].map MEntry.id
    ∧ (mkEntry 1 [(0, Chunk.mk 0 "x"), (0, Chunk.mk 0 "y")]).id ∉
        cancelCleanup [mkEntry 1 [(0, Chunk.mk 0 "x"), (0, Chunk.mk 0 "y")],
          mkEntry 2 [(1, Chunk.mk 0 "z")]] 1
    ∧ ∀ r ∈ [mkEntry 2 [(1, Chunk.mk 0 "z")]],
        (cancelCleanup [mkEntry 1 [(0, Chunk.mk 0 "x"),
          (0, Chunk.mk 0 "y")], mkEntry 2 [(1, Chunk.mk 0 "z")]] 1).count
          r.id = 1 :=
  (claim_C8_amended [mkEntry 1 [(0, Chunk.mk 0 "x"), (0, Chunk.mk 0 "y")],
      mkEntry 2 [(1, Chunk.mk 0 "z")]] 1 (by decide)).2.2
    (mkEntry 1 [(0, Chunk.mk 0 "x"), (0, Chunk.mk 0 "y")])
    [mkEntry 2 [(1, Chunk.mk 0 "z")]] (by decide) (by decide)

/-- Claim C9: the base-85 codec round-trips exactly: for every byte
sequence, including lengths that leave 1, 2 or 3 trailing bytes after
grouping into 4-byte words, `decode85 (encode85 b)` is a buffer of the
same length whose bytes equal `b`. -/
theorem claim_C9 (b : List Nat) (hb : ∀ x ∈ b, x < 256) :
    Z85.decode85 (Z85.encode85 b) = b
    ∧ (Z85.decode85 (Z85.encode85 b)).length = b.length := by
  have h := decode_encode85 b hb
  exact ⟨h, by rw [h]⟩

theorem claim_C9_witness :
    (∀ x ∈ ([0, 255, 1, 2, 3, 128, 200] : List Nat), x < 256)
    ∧ (Z85.decode85 (Z85.encode85 [0, 255, 1, 2, 3, 128, 200])
        = [0, 255, 1, 2, 3, 128, 200]
      ∧ (Z85.decode85 (Z85.encode85 [0, 255, 1, 2, 3, 128, 200])).length
        = ([0, 255, 1, 2, 3, 128, 200] : List Nat).length) :=
  ⟨by decide, claim_C9 [0, 255, 1, 2, 3, 128, 200] (by decide)⟩

/-- Claim C10: a well-formed post-head line whose channel id is not
currently registered is silently discarded by `parseAsync`'s pump: the pump
state is exactly as if the line had not been there - nothing is thrown, no
interruption is broadcast, and no channel's buffer changes. -/
theorem claim_C10 (idx s : Nat) (p : String)
    (rest : List (Option (Nat × Nat × String))) (ending : Option String)
    (m : ChanMap) (h : idx ∉ m.map Prod.fst) :
    AsyncJs.pumpParseAsync (some (idx, s, p) :: rest) ending m
      = AsyncJs.pumpParseAsync rest ending m := by
  show AsyncJs.pumpParseAsync rest ending (enqueueTo m idx (PItem.val s p))
    = AsyncJs.pumpParseAsync rest ending m
  rw [enqueueTo_not_mem m idx (PItem.val s p) h]

theorem claim_C10_witness :
    AsyncJs.pumpParseAsync [some (5, 0, "x")] none [(1, [])]
      = AsyncJs.pumpParseAsync [] none [(1, [])] :=
  claim_C10 5 0 "x" [] none [(1, [])] (by decide)
